import Mathlib

/-!
Verification of the room-synchronization server.

The repository holds three closely related server variants:
* `src/unnamed/part_000` — the basic server with a `heartbeat` authority check;
* `src/server.js` (first program) — the basic server without `heartbeat`;
* `src/server.js` (second program) — the enhanced server with media validation,
  a capped chat history and a duration clamp in the sync estimator.

`SyncServer.Basic` embeds the first two (their shared handlers are textually
identical); `SyncServer.Enhanced` embeds the third.  JavaScript `Map`s are
modelled as insertion-ordered association lists (`mapGet`/`mapSet`/`mapDelete`),
numbers as rationals, and JS truthiness of the few values the code tests
(`null`/`undefined`, the empty string, the number `0`) explicitly.
-/

namespace SyncServer

/-- Lookup in an insertion-ordered association list, i.e. `Map.get`. -/
def mapGet {α : Type} : List (String × α) → String → Option α
  | [], _ => none
  | p :: t, k => if p.1 = k then some p.2 else mapGet t k

/-- `Map.set`: replace the entry in place if the key is present (JS `Map.set`
keeps the original insertion position), otherwise append. -/
def mapSet {α : Type} : List (String × α) → String → α → List (String × α)
  | [], k, v => [(k, v)]
  | p :: t, k, v => if p.1 = k then (k, v) :: t else p :: mapSet t k v

/-- `Map.delete`: remove the entry with the given key. -/
def mapDelete {α : Type} : List (String × α) → String → List (String × α)
  | [], _ => []
  | p :: t, k => if p.1 = k then t else p :: mapDelete t k

/-- `Map.has`, expressed through `mapGet`. -/
def hasKey {α : Type} (m : List (String × α)) (k : String) : Bool :=
  (mapGet m k).isSome

/-- The keys of an association list, in insertion order. -/
def keys {α : Type} (m : List (String × α)) : List String :=
  m.map (·.1)

theorem mapGet_set_self {α : Type} (m : List (String × α)) (k : String) (v : α) :
    mapGet (mapSet m k v) k = some v := by
  induction m with
  | nil => simp [mapSet, mapGet]
  | cons p t ih =>
    by_cases h : p.1 = k
    · simp [mapSet, mapGet, h]
    · simp [mapSet, mapGet, h, ih]

theorem mapGet_set_ne {α : Type} (m : List (String × α)) (k k' : String) (v : α)
    (h : k' ≠ k) : mapGet (mapSet m k v) k' = mapGet m k' := by
  induction m with
  | nil =>
    show mapGet [(k, v)] k' = none
    simp only [mapGet]
    rw [if_neg (fun hk => h hk.symm)]
  | cons p t ih =>
    by_cases hp : p.1 = k
    · simp only [mapSet]
      rw [if_pos hp]
      simp only [mapGet]
      rw [if_neg (fun hk => h hk.symm), if_neg (by rw [hp]; exact fun hk => h hk.symm)]
    · simp only [mapSet]
      rw [if_neg hp]
      simp only [mapGet]
      by_cases hq : p.1 = k'
      · rw [if_pos hq, if_pos hq]
      · rw [if_neg hq, if_neg hq, ih]

theorem mapGet_del_ne {α : Type} (m : List (String × α)) (k k' : String)
    (h : k' ≠ k) : mapGet (mapDelete m k) k' = mapGet m k' := by
  induction m with
  | nil => rfl
  | cons p t ih =>
    by_cases hp : p.1 = k
    · simp only [mapDelete]
      rw [if_pos hp]
      simp only [mapGet]
      rw [if_neg (by rw [hp]; exact fun hk => h hk.symm)]
    · simp only [mapDelete]
      rw [if_neg hp]
      simp only [mapGet]
      by_cases hq : p.1 = k'
      · rw [if_pos hq, if_pos hq]
      · rw [if_neg hq, if_neg hq, ih]

theorem mapGet_none_of_not_mem_keys {α : Type} (m : List (String × α)) (k : String)
    (h : k ∉ keys m) : mapGet m k = none := by
  induction m with
  | nil => rfl
  | cons p t ih =>
    simp only [keys, List.map_cons, List.mem_cons, not_or] at h
    have hp : ¬ (p.1 = k) := fun he => h.1 he.symm
    simp [mapGet, hp]
    exact ih (by simpa [keys] using h.2)

theorem mem_keys_mapSet {α : Type} (m : List (String × α)) (k k' : String) (v : α)
    (h : k' ∈ keys (mapSet m k v)) : k' = k ∨ k' ∈ keys m := by
  induction m with
  | nil => simpa [mapSet, keys] using h
  | cons p t ih =>
    by_cases hp : p.1 = k
    · rw [show mapSet (p :: t) k v = (k, v) :: t from by simp only [mapSet]; rw [if_pos hp]] at h
      simp only [keys, List.map_cons, List.mem_cons] at h ⊢
      rcases h with h1 | h1
      · exact Or.inl h1
      · exact Or.inr (Or.inr h1)
    · rw [show mapSet (p :: t) k v = p :: mapSet t k v from by
        simp only [mapSet]; rw [if_neg hp]] at h
      simp only [keys, List.map_cons, List.mem_cons] at h ⊢
      rcases h with h1 | h1
      · exact Or.inr (Or.inl h1)
      · rcases ih (by simpa [keys] using h1) with h2 | h2
        · exact Or.inl h2
        · exact Or.inr (Or.inr h2)

theorem mem_keys_mapDelete {α : Type} (m : List (String × α)) (k k' : String)
    (h : k' ∈ keys (mapDelete m k)) : k' ∈ keys m := by
  induction m with
  | nil => simpa [mapDelete] using h
  | cons p t ih =>
    by_cases hp : p.1 = k
    · rw [show mapDelete (p :: t) k = t from by simp only [mapDelete]; rw [if_pos hp]] at h
      simp only [keys, List.map_cons, List.mem_cons]
      exact Or.inr h
    · rw [show mapDelete (p :: t) k = p :: mapDelete t k from by
        simp only [mapDelete]; rw [if_neg hp]] at h
      simp only [keys, List.map_cons, List.mem_cons] at h ⊢
      rcases h with h1 | h1
      · exact Or.inl h1
      · exact Or.inr (ih (by simpa [keys] using h1))

theorem nodup_keys_mapSet {α : Type} (m : List (String × α)) (k : String) (v : α)
    (h : (keys m).Nodup) : (keys (mapSet m k v)).Nodup := by
  induction m with
  | nil => simp [mapSet, keys]
  | cons p t ih =>
    simp only [keys, List.map_cons, List.nodup_cons] at h
    by_cases hp : p.1 = k
    · rw [show mapSet (p :: t) k v = (k, v) :: t from by simp only [mapSet]; rw [if_pos hp]]
      simp only [keys, List.map_cons, List.nodup_cons]
      exact ⟨by rw [← hp]; exact h.1, h.2⟩
    · rw [show mapSet (p :: t) k v = p :: mapSet t k v from by
        simp only [mapSet]; rw [if_neg hp]]
      simp only [keys, List.map_cons, List.nodup_cons]
      refine ⟨fun hmem => ?_, ih h.2⟩
      rcases mem_keys_mapSet t k p.1 v hmem with h1 | h1
      · exact hp h1
      · exact h.1 h1

theorem nodup_keys_mapDelete {α : Type} (m : List (String × α)) (k : String)
    (h : (keys m).Nodup) : (keys (mapDelete m k)).Nodup := by
  induction m with
  | nil => simp [mapDelete, keys]
  | cons p t ih =>
    simp only [keys, List.map_cons, List.nodup_cons] at h
    by_cases hp : p.1 = k
    · rw [show mapDelete (p :: t) k = t from by simp only [mapDelete]; rw [if_pos hp]]
      exact h.2
    · rw [show mapDelete (p :: t) k = p :: mapDelete t k from by
        simp only [mapDelete]; rw [if_neg hp]]
      simp only [keys, List.map_cons, List.nodup_cons]
      exact ⟨fun hmem => h.1 (mem_keys_mapDelete t k p.1 hmem), ih h.2⟩

theorem mapGet_del_self {α : Type} (m : List (String × α)) (k : String)
    (h : (keys m).Nodup) : mapGet (mapDelete m k) k = none := by
  induction m with
  | nil => rfl
  | cons p t ih =>
    simp only [keys, List.map_cons, List.nodup_cons] at h
    by_cases hp : p.1 = k
    · rw [show mapDelete (p :: t) k = t from by simp only [mapDelete]; rw [if_pos hp]]
      exact mapGet_none_of_not_mem_keys t k (by rw [← hp]; exact h.1)
    · rw [show mapDelete (p :: t) k = p :: mapDelete t k from by
        simp only [mapDelete]; rw [if_neg hp]]
      simp only [mapGet]
      rw [if_neg hp]
      exact ih h.2

theorem mapGet_del_some {α : Type} (m : List (String × α)) (k k' : String) (v : α)
    (hnd : (keys m).Nodup) (h : mapGet (mapDelete m k) k' = some v) :
    mapGet m k' = some v := by
  by_cases hk : k' = k
  · rw [hk, mapGet_del_self m k hnd] at h
    exact absurd h (by simp)
  · rw [mapGet_del_ne m k k' hk] at h
    exact h

theorem hasKey_set_self {α : Type} (m : List (String × α)) (k : String) (v : α) :
    hasKey (mapSet m k v) k = true := by
  simp [hasKey, mapGet_set_self]

theorem hasKey_set_mono {α : Type} (m : List (String × α)) (k k' : String) (v : α)
    (h : hasKey m k' = true) : hasKey (mapSet m k v) k' = true := by
  by_cases hk : k' = k
  · rw [hk]; exact hasKey_set_self m k v
  · rw [hasKey, mapGet_set_ne m k k' v hk]; exact h

theorem hasKey_del_ne {α : Type} (m : List (String × α)) (k k' : String)
    (h : k' ≠ k) : hasKey (mapDelete m k) k' = hasKey m k' := by
  rw [hasKey, hasKey, mapGet_del_ne m k k' h]

theorem ne_nil_of_hasKey {α : Type} (m : List (String × α)) (k : String)
    (h : hasKey m k = true) : m ≠ [] := by
  intro hnil
  rw [hnil] at h
  simp [hasKey, mapGet] at h

theorem mapSet_ne_nil {α : Type} (m : List (String × α)) (k : String) (v : α) :
    mapSet m k v ≠ [] := by
  cases m with
  | nil => simp [mapSet]
  | cons p t =>
    by_cases hp : p.1 = k <;> simp [mapSet, hp]

theorem hasKey_of_head {α : Type} (m : List (String × α)) (p : String × α)
    (h : m.head? = some p) : hasKey m p.1 = true := by
  cases m with
  | nil => simp at h
  | cons q t =>
    simp only [List.head?_cons, Option.some_inj] at h
    subst h
    simp [hasKey, mapGet]

/-- JS `x || d` for an optional string `x`: `null`/`undefined` and the empty
string are falsy. -/
def jsStrOr (o : Option String) (d : String) : String :=
  match o with
  | some s => if s = "" then d else s
  | none => d

/-- JS `x || 0` for an optional number `x` (`data.currentTime || 0`):
`undefined` is falsy and yields `0`; `0` itself also yields `0`, which
coincides with passing the number through. -/
def jsNumOr (o : Option Rat) : Rat :=
  o.getD 0

/-- JS `String.prototype.trim()`: strip whitespace from both ends.  Written
over the character list so that it is fully reducible. -/
def jsTrim (s : String) : String :=
  String.mk
    (((s.toList.dropWhile Char.isWhitespace).reverse.dropWhile
        Char.isWhitespace).reverse)

/-- JS truthiness of an optional number (`currentMedia.duration`, `maxTime`):
`null`/`undefined` and `0` are falsy. -/
def truthyNum (o : Option Rat) : Bool :=
  match o with
  | some r => decide (r ≠ 0)
  | none => false

/-- JS truthiness of an optional string field (`mediaData.videoId` etc.). -/
def truthyStr (o : Option String) : Bool :=
  match o with
  | some s => decide (s ≠ "")
  | none => false

/-- JS `!x` for the nullable `room.hostId` (`null` and `""` are falsy). -/
def hostFalsy (o : Option String) : Bool :=
  match o with
  | some h => decide (h = "")
  | none => true

/-- A media payload object (`videoData` / `audioData`).  JS objects are
duck-typed, so one structure with optional fields covers both kinds; absent
fields are `none` (JS `undefined`). -/
structure MediaData where
  videoId : Option String := none
  id : Option String := none
  title : Option String := none
  artist : Option String := none
  previewUrl : Option String := none
  duration : Option Rat := none
  mtype : Option String := none
deriving DecidableEq

namespace Basic

/-- A member entry of `room.users` in the basic servers:
`{ id: socket.id, username: socket.username }`. -/
structure User where
  id : String
  username : String
deriving DecidableEq

/-- Room state of the basic servers (`getRoom` in `src/unnamed/part_000` and
the first program of `src/server.js`). -/
structure Room where
  currentVideo : Option MediaData
  isPlaying : Bool
  currentTime : Rat
  lastUpdate : Rat
  lastController : Option String
  users : List (String × User)
  hostId : Option String
deriving DecidableEq

/-- The defaults a room is created with (`rooms.set(roomId, {...})`). -/
def Room.fresh (now : Rat) : Room :=
  { currentVideo := none, isPlaying := false, currentTime := 0, lastUpdate := now
    lastController := none, users := [], hostId := none }

/-- Payload of `play-pause` / `heartbeat` / `state-update`:
`{ isPlaying, currentTime }` with `currentTime` possibly absent. -/
structure StatePayload where
  isPlaying : Bool
  currentTime : Option Rat
deriving DecidableEq

/-- Payload of `seek`: `{ currentTime, isPlaying? }`; the handlers read
`data.currentTime` directly (numeric per the spec precondition) and
`data.isPlaying || false`. -/
structure SeekPayload where
  currentTime : Rat
  isPlaying : Option Bool
deriving DecidableEq

/-- `video-change` handler body (both basic servers): store the payload,
reset playback, record the sender as last controller. -/
def videoChange (room : Room) (sid : String) (v : MediaData) (now : Rat) : Room :=
  { room with currentVideo := some v, isPlaying := false, currentTime := 0
            , lastUpdate := now, lastController := some sid }

/-- `play-pause` handler body: `room.isPlaying = data.isPlaying;
room.currentTime = data.currentTime || 0; lastUpdate = now;
lastController = sender`. -/
def playPause (room : Room) (sid : String) (d : StatePayload) (now : Rat) : Room :=
  { room with isPlaying := d.isPlaying, currentTime := jsNumOr d.currentTime
            , lastUpdate := now, lastController := some sid }

/-- `seek` handler body: `room.currentTime = data.currentTime;
room.isPlaying = data.isPlaying || false; lastUpdate = now;
lastController = sender`.  No clamping of the position. -/
def seek (room : Room) (sid : String) (d : SeekPayload) (now : Rat) : Room :=
  { room with currentTime := d.currentTime, isPlaying := d.isPlaying.getD false
            , lastUpdate := now, lastController := some sid }

/-- `heartbeat` handler (`src/unnamed/part_000` only): the update is applied
and re-broadcast iff the sender is the last controller or more than 10000 ms
passed since `room.lastUpdate`; the returned Bool is true exactly when the
`heartbeat` broadcast to the other members is emitted.  `lastController` is
not written in either case. -/
def heartbeat (room : Room) (sid : String) (d : StatePayload) (now : Rat) :
    Room × Bool :=
  if room.lastController = some sid ∨ now - room.lastUpdate > 10000 then
    ({ room with isPlaying := d.isPlaying, currentTime := jsNumOr d.currentTime
               , lastUpdate := now }, true)
  else
    (room, false)

/-- `state-update` handler body: no authority check at all; always applied,
always broadcast, and the sender becomes `lastController`. -/
def stateUpdate (room : Room) (sid : String) (d : StatePayload) (now : Rat) : Room :=
  { room with isPlaying := d.isPlaying, currentTime := jsNumOr d.currentTime
            , lastUpdate := now, lastController := some sid }

/-- The `sync-response` payload of the basic servers. -/
structure SyncResp where
  currentTime : Rat
  isPlaying : Bool
  mtype : String
  serverTime : Rat
  lastController : Option String
deriving DecidableEq

/-- `sync-request` handler (basic servers): project the stored position
forward by the elapsed seconds when playing, clamp below at 0.  There is no
upper clamp of any kind.  The handler reads the room and emits only to the
requester. -/
def syncResponse (room : Room) (now : Rat) : SyncResp :=
  let timeSinceLastUpdate := (now - room.lastUpdate) / 1000
  let estimatedCurrentTime :=
    room.currentTime + (if room.isPlaying then timeSinceLastUpdate else 0)
  { currentTime := max 0 estimatedCurrentTime
    isPlaying := room.isPlaying
    mtype := jsStrOr (room.currentVideo.bind (·.mtype)) "youtube"
    serverTime := now
    lastController := room.lastController }

/-- The `chat-message` payload broadcast by the basic servers; the handler
performs no validation and always broadcasts to the whole room. -/
structure ChatOut where
  username : String
  message : String
  timestamp : Rat
  userId : String
deriving DecidableEq

/-- `chat-message` handler (basic servers): trims and broadcasts
unconditionally, mutating nothing. -/
def chatMessage (username sid : String) (message : String) (now : Rat) : ChatOut :=
  { username := username, message := jsTrim message, timestamp := now, userId := sid }

/-- Per-connection session data the handlers read: `socket.roomId` and
`socket.username`, both set by `join-room`. -/
structure Session where
  roomId : Option String
  username : String
deriving DecidableEq

/-- Global server state: the `rooms` registry plus the per-socket sessions. -/
structure ServerState where
  rooms : List (String × Room)
  sockets : List (String × Session)
deriving DecidableEq

/-- The state at process start: no rooms, no connections. -/
def ServerState.empty : ServerState :=
  { rooms := [], sockets := [] }

/-- `getRoom roomId`: the existing room, or the fresh default (the handler
installs the resulting room back into the registry, which the step functions
below do with `mapSet` at the end of each atomic handler turn). -/
def getRoomOr (rooms : List (String × Room)) (rid : String) (now : Rat) : Room :=
  (mapGet rooms rid).getD (Room.fresh now)

/-- The room id the socket's session points at, if any. -/
def sessionRoomId (s : ServerState) (sid : String) : Option String :=
  (mapGet s.sockets sid).bind (·.roomId)

/-- `User${socket.id.substring(0, 4)}`, the default display name. -/
def defaultName (sid : String) : String :=
  "User" ++ sid.take 4

/-- The inbound socket events of the basic servers (each carries the
`Date.now()` value observed inside its handler). -/
inductive Event where
  | joinRoom (sid rid : String) (uname : Option String) (now : Rat)
  | videoChange (sid : String) (v : MediaData) (now : Rat)
  | playPause (sid : String) (d : StatePayload) (now : Rat)
  | seek (sid : String) (d : SeekPayload) (now : Rat)
  | heartbeat (sid : String) (d : StatePayload) (now : Rat)
  | stateUpdate (sid : String) (d : StatePayload) (now : Rat)
  | syncRequest (sid : String) (now : Rat)
  | chatMessage (sid : String) (m : String) (now : Rat)
  | disconnect (sid : String) (now : Rat)
deriving DecidableEq

/-- The room part of the `join-room` handler: make the joiner host when
`!room.hostId`, and insert the member.  (The JS assigns `hostId` before
`users.set`; the two writes are independent, so the room is built here in
one record.) -/
def joinRoomUpd (r0 : Room) (sid name : String) : Room :=
  { r0 with
    hostId := if hostFalsy r0.hostId then some sid else r0.hostId
    users := mapSet r0.users sid { id := sid, username := name } }

/-- The `join-room` handler: set the session, create the room on first join,
and apply `joinRoomUpd`. -/
def applyJoin (s : ServerState) (sid rid : String) (uname : Option String)
    (now : Rat) : ServerState :=
  let name := jsStrOr uname (defaultName sid)
  { rooms := mapSet s.rooms rid (joinRoomUpd (getRoomOr s.rooms rid now) sid name)
    sockets := mapSet s.sockets sid { roomId := some rid, username := name } }

/-- Common wrapper of the playback handlers: `if (!socket.roomId) return;`
then `getRoom` and one room mutation, written back atomically. -/
def roomEvent (s : ServerState) (sid : String) (f : Room → Room) (now : Rat) :
    ServerState :=
  match sessionRoomId s sid with
  | none => s
  | some rid =>
    { s with rooms := mapSet s.rooms rid (f (getRoomOr s.rooms rid now)) }

/-- The room part of the `disconnect` handler: remove the member
(`room.users.delete(socket.id)`), and if the leaver was host, promote the
insertion-order head of the remaining member map
(`room.users.keys().next().value || null`, so an empty-string key is
nulled out by `||`). -/
def disconnectRoom (r0 : Room) (sid : String) : Room :=
  { r0 with
    users := mapDelete r0.users sid
    hostId :=
      if r0.hostId = some sid then
        match (mapDelete r0.users sid).head? with
        | some p => if p.1 = "" then none else some p.1
        | none => none
      else r0.hostId }

/-- The `disconnect` handler: apply `disconnectRoom` to the session's room,
delete the room when it became empty, drop the session. -/
def applyDisconnect (s : ServerState) (sid : String) (now : Rat) : ServerState :=
  match sessionRoomId s sid with
  | none => { s with sockets := mapDelete s.sockets sid }
  | some rid =>
    let r2 := disconnectRoom (getRoomOr s.rooms rid now) sid
    { rooms := if r2.users.isEmpty then mapDelete s.rooms rid
               else mapSet s.rooms rid r2
      sockets := mapDelete s.sockets sid }

/-- One atomic handler turn of the basic server. -/
def stepF (s : ServerState) (e : Event) : ServerState :=
  match e with
  | .joinRoom sid rid uname now => applyJoin s sid rid uname now
  | .videoChange sid v now => roomEvent s sid (fun r => videoChange r sid v now) now
  | .playPause sid d now => roomEvent s sid (fun r => playPause r sid d now) now
  | .seek sid d now => roomEvent s sid (fun r => seek r sid d now) now
  | .heartbeat sid d now => roomEvent s sid (fun r => (heartbeat r sid d now).1) now
  | .stateUpdate sid d now => roomEvent s sid (fun r => stateUpdate r sid d now) now
  | .syncRequest _ _ => s
  | .chatMessage _ _ _ => s
  | .disconnect sid now => applyDisconnect s sid now

/-- The server states reachable from process start by any event sequence. -/
inductive Reachable : ServerState → Prop where
  | empty : Reachable ServerState.empty
  | step {s : ServerState} (h : Reachable s) (e : Event) : Reachable (stepF s e)

/-- The structural invariant of the basic server, on the two registries:
no duplicate keys; a session pointing at a room implies that room exists and
still holds the socket as a member; registered rooms are nonempty; the host
of a registered room is one of its members. -/
def InvOn (rooms : List (String × Room)) (sockets : List (String × Session)) : Prop :=
  (keys sockets).Nodup ∧
  (keys rooms).Nodup ∧
  (∀ sid rid, (mapGet sockets sid).bind (·.roomId) = some rid →
    ∃ room, mapGet rooms rid = some room ∧ hasKey room.users sid = true) ∧
  (∀ rid room, mapGet rooms rid = some room → room.users ≠ []) ∧
  (∀ rid room hid, mapGet rooms rid = some room → room.hostId = some hid →
    hasKey room.users hid = true)

/-- The structural invariant, as a predicate on the whole server state. -/
def Inv (s : ServerState) : Prop :=
  InvOn s.rooms s.sockets

theorem heartbeat_users (r : Room) (sid : String) (d : StatePayload) (now : Rat) :
    ((heartbeat r sid d now).1).users = r.users := by
  unfold heartbeat
  split <;> rfl

theorem heartbeat_hostId (r : Room) (sid : String) (d : StatePayload) (now : Rat) :
    ((heartbeat r sid d now).1).hostId = r.hostId := by
  unfold heartbeat
  split <;> rfl

theorem sessionRoomId_mk (rooms : List (String × Room))
    (sockets : List (String × Session)) (sid : String) :
    sessionRoomId ⟨rooms, sockets⟩ sid = (mapGet sockets sid).bind (·.roomId) :=
  rfl

theorem inv_roomEvent (s : ServerState) (sid : String) (f : Room → Room) (now : Rat)
    (hu : ∀ r, (f r).users = r.users) (hh : ∀ r, (f r).hostId = r.hostId)
    (hs : Inv s) : Inv (roomEvent s sid f now) := by
  obtain ⟨ndS, ndR, inv1, inv2, inv3⟩ := hs
  unfold roomEvent
  cases hsr : sessionRoomId s sid with
  | none => exact ⟨ndS, ndR, inv1, inv2, inv3⟩
  | some rid =>
    show InvOn (mapSet s.rooms rid (f (getRoomOr s.rooms rid now))) s.sockets
    obtain ⟨room0, hroom0, hkey0⟩ := inv1 sid rid hsr
    have hgro : getRoomOr s.rooms rid now = room0 := by
      simp [getRoomOr, hroom0]
    rw [hgro]
    refine ⟨ndS, nodup_keys_mapSet _ _ _ ndR, ?_, ?_, ?_⟩
    · intro sid2 rid2 hsr2
      obtain ⟨room2, hr2, hk2⟩ := inv1 sid2 rid2 hsr2
      by_cases h : rid2 = rid
      · subst h
        refine ⟨f room0, mapGet_set_self _ _ _, ?_⟩
        have he : room2 = room0 := by
          rw [hroom0] at hr2
          exact (Option.some_inj.mp hr2).symm
        rw [hu]
        rw [he] at hk2
        exact hk2
      · exact ⟨room2, by rw [mapGet_set_ne _ _ _ _ h]; exact hr2, hk2⟩
    · intro rid2 room2 h2
      by_cases h : rid2 = rid
      · subst h
        rw [mapGet_set_self] at h2
        have he : f room0 = room2 := Option.some_inj.mp h2
        rw [← he, hu]
        exact inv2 _ room0 hroom0
      · rw [mapGet_set_ne _ _ _ _ h] at h2
        exact inv2 _ _ h2
    · intro rid2 room2 hid h2 hhost
      by_cases h : rid2 = rid
      · subst h
        rw [mapGet_set_self] at h2
        have he : f room0 = room2 := Option.some_inj.mp h2
        rw [← he, hu]
        rw [← he, hh] at hhost
        exact inv3 _ room0 hid hroom0 hhost
      · rw [mapGet_set_ne _ _ _ _ h] at h2
        exact inv3 _ _ _ h2 hhost

theorem inv_applyJoin (s : ServerState) (sid rid : String) (uname : Option String)
    (now : Rat) (hs : Inv s) : Inv (applyJoin s sid rid uname now) := by
  obtain ⟨ndS, ndR, inv1, inv2, inv3⟩ := hs
  set name := jsStrOr uname (defaultName sid) with hname
  set r0 := getRoomOr s.rooms rid now with hr0
  set r2 : Room := joinRoomUpd r0 sid name with hr2
  show InvOn (mapSet s.rooms rid r2)
    (mapSet s.sockets sid { roomId := some rid, username := name })
  refine ⟨nodup_keys_mapSet _ _ _ ndS, nodup_keys_mapSet _ _ _ ndR, ?_, ?_, ?_⟩
  · intro sid2 rid2 hsr2
    by_cases hsid : sid2 = sid
    · subst hsid
      rw [mapGet_set_self] at hsr2
      have hr : rid = rid2 := by simpa using hsr2
      subst hr
      refine ⟨r2, mapGet_set_self _ _ _, ?_⟩
      rw [hr2]
      exact hasKey_set_self _ _ _
    · rw [mapGet_set_ne _ _ _ _ hsid] at hsr2
      obtain ⟨room2, hm2, hk2⟩ := inv1 sid2 rid2 hsr2
      by_cases h : rid2 = rid
      · subst h
        refine ⟨r2, mapGet_set_self _ _ _, ?_⟩
        have he : r0 = room2 := by
          rw [hr0, getRoomOr, hm2]
          rfl
        rw [hr2]
        show hasKey (mapSet r0.users sid { id := sid, username := name }) sid2 = true
        rw [he]
        exact hasKey_set_mono _ _ _ _ hk2
      · exact ⟨room2, by rw [mapGet_set_ne _ _ _ _ h]; exact hm2, hk2⟩
  · intro rid2 room2 h2
    by_cases h : rid2 = rid
    · subst h
      rw [mapGet_set_self] at h2
      have he := Option.some_inj.mp h2
      rw [← he, hr2]
      show mapSet r0.users sid { id := sid, username := name } ≠ []
      exact mapSet_ne_nil _ _ _
    · rw [mapGet_set_ne _ _ _ _ h] at h2
      exact inv2 _ _ h2
  · intro rid2 room2 hid h2 hhost
    by_cases h : rid2 = rid
    · subst h
      rw [mapGet_set_self] at h2
      have he := Option.some_inj.mp h2
      rw [← he] at hhost ⊢
      rw [hr2] at hhost ⊢
      show hasKey (mapSet r0.users sid { id := sid, username := name }) hid = true
      replace hhost : (if hostFalsy r0.hostId then some sid else r0.hostId) = some hid :=
        hhost
      by_cases hf : hostFalsy r0.hostId = true
      · rw [if_pos hf] at hhost
        have : sid = hid := Option.some_inj.mp hhost
        rw [← this]
        exact hasKey_set_self _ _ _
      · rw [if_neg hf] at hhost
        cases hmg : mapGet s.rooms rid2 with
        | none =>
          exfalso
          have hfr : r0.hostId = none := by
            rw [hr0, getRoomOr, hmg]
            rfl
          rw [hfr] at hhost
          exact Option.noConfusion hhost
        | some roomOld =>
          have he2 : r0 = roomOld := by
            rw [hr0, getRoomOr, hmg]
            rfl
          rw [he2] at hhost ⊢
          exact hasKey_set_mono _ _ _ _ (inv3 rid2 roomOld hid hmg hhost)
    · rw [mapGet_set_ne _ _ _ _ h] at h2
      exact inv3 _ _ _ h2 hhost

theorem disconnectRoom_users (r : Room) (sid : String) :
    (disconnectRoom r sid).users = mapDelete r.users sid :=
  rfl

theorem disconnectRoom_hostId (r : Room) (sid : String) :
    (disconnectRoom r sid).hostId =
      if r.hostId = some sid then
        match (mapDelete r.users sid).head? with
        | some p => if p.1 = "" then none else some p.1
        | none => none
      else r.hostId :=
  rfl

theorem inv_applyDisconnect (s : ServerState) (sid : String) (now : Rat)
    (hs : Inv s) : Inv (applyDisconnect s sid now) := by
  obtain ⟨ndS, ndR, inv1, inv2, inv3⟩ := hs
  unfold applyDisconnect
  cases hsr : sessionRoomId s sid with
  | none =>
    show InvOn s.rooms (mapDelete s.sockets sid)
    refine ⟨nodup_keys_mapDelete _ _ ndS, ndR, ?_, inv2, inv3⟩
    intro sid2 rid2 hsr2
    cases hg : mapGet (mapDelete s.sockets sid) sid2 with
    | none => rw [hg] at hsr2; exact absurd hsr2 (by simp)
    | some sess2 =>
      have hg2 : mapGet s.sockets sid2 = some sess2 := mapGet_del_some _ _ _ _ ndS hg
      refine inv1 sid2 rid2 ?_
      rw [hg2]
      rw [hg] at hsr2
      exact hsr2
  | some rid =>
    obtain ⟨room0, hroom0, hkey0⟩ := inv1 sid rid hsr
    have hgro : getRoomOr s.rooms rid now = room0 := by
      simp [getRoomOr, hroom0]
    show InvOn
      (if (disconnectRoom (getRoomOr s.rooms rid now) sid).users.isEmpty then
        mapDelete s.rooms rid
       else mapSet s.rooms rid (disconnectRoom (getRoomOr s.rooms rid now) sid))
      (mapDelete s.sockets sid)
    rw [hgro]
    have hsess : ∀ sid2 rid2,
        (mapGet (mapDelete s.sockets sid) sid2).bind (·.roomId) = some rid2 →
        sid2 ≠ sid ∧ (mapGet s.sockets sid2).bind (·.roomId) = some rid2 := by
      intro sid2 rid2 hsr2
      cases hg : mapGet (mapDelete s.sockets sid) sid2 with
      | none => rw [hg] at hsr2; exact absurd hsr2 (by simp)
      | some sess2 =>
        have hg2 : mapGet s.sockets sid2 = some sess2 := mapGet_del_some _ _ _ _ ndS hg
        have hne : sid2 ≠ sid := by
          intro he
          subst he
          rw [mapGet_del_self _ _ ndS] at hg
          exact Option.noConfusion hg
        rw [hg] at hsr2
        exact ⟨hne, by rw [hg2]; exact hsr2⟩
    by_cases hE : (disconnectRoom room0 sid).users.isEmpty = true
    · rw [if_pos hE]
      refine ⟨nodup_keys_mapDelete _ _ ndS, nodup_keys_mapDelete _ _ ndR, ?_, ?_, ?_⟩
      · intro sid2 rid2 hsr2
        obtain ⟨hne, hold⟩ := hsess sid2 rid2 hsr2
        obtain ⟨room2, hm2, hk2⟩ := inv1 sid2 rid2 hold
        by_cases h : rid2 = rid
        · exfalso
          subst h
          have he0 : room2 = room0 := by
            rw [hroom0] at hm2
            exact (Option.some_inj.mp hm2).symm
          have hk1 : hasKey (mapDelete room0.users sid) sid2 = true := by
            rw [hasKey_del_ne _ _ _ hne]
            rw [he0] at hk2
            exact hk2
          rw [disconnectRoom_users] at hE
          exact ne_nil_of_hasKey _ _ hk1 (List.isEmpty_iff.mp hE)
        · exact ⟨room2, by rw [mapGet_del_ne _ _ _ h]; exact hm2, hk2⟩
      · intro rid2 room2 h2
        exact inv2 _ _ (mapGet_del_some _ _ _ _ ndR h2)
      · intro rid2 room2 hid h2 hhost
        exact inv3 _ _ _ (mapGet_del_some _ _ _ _ ndR h2) hhost
    · rw [if_neg hE]
      refine ⟨nodup_keys_mapDelete _ _ ndS, nodup_keys_mapSet _ _ _ ndR, ?_, ?_, ?_⟩
      · intro sid2 rid2 hsr2
        obtain ⟨hne, hold⟩ := hsess sid2 rid2 hsr2
        obtain ⟨room2, hm2, hk2⟩ := inv1 sid2 rid2 hold
        by_cases h : rid2 = rid
        · subst h
          refine ⟨disconnectRoom room0 sid, mapGet_set_self _ _ _, ?_⟩
          rw [disconnectRoom_users, hasKey_del_ne _ _ _ hne]
          have he0 : room2 = room0 := by
            rw [hroom0] at hm2
            exact (Option.some_inj.mp hm2).symm
          rw [← he0]
          exact hk2
        · exact ⟨room2, by rw [mapGet_set_ne _ _ _ _ h]; exact hm2, hk2⟩
      · intro rid2 room2 h2
        by_cases h : rid2 = rid
        · subst h
          rw [mapGet_set_self] at h2
          have he := Option.some_inj.mp h2
          rw [← he]
          intro hnil
          rw [disconnectRoom_users] at hE hnil
          rw [hnil] at hE
          exact hE rfl
        · rw [mapGet_set_ne _ _ _ _ h] at h2
          exact inv2 _ _ h2
      · intro rid2 room2 hid h2 hhost
        by_cases h : rid2 = rid
        · subst h
          rw [mapGet_set_self] at h2
          have he := Option.some_inj.mp h2
          rw [← he] at hhost ⊢
          rw [disconnectRoom_users]
          rw [disconnectRoom_hostId] at hhost
          by_cases hh0 : room0.hostId = some sid
          · rw [if_pos hh0] at hhost
            cases hhead : (mapDelete room0.users sid).head? with
            | none =>
              rw [hhead] at hhost
              have hhost2 : (none : Option String) = some hid := hhost
              exact Option.noConfusion hhost2
            | some p =>
              rw [hhead] at hhost
              have hhost2 : (if p.1 = "" then none else some p.1) = some hid := hhost
              by_cases hpe : p.1 = ""
              · rw [if_pos hpe] at hhost2
                exact Option.noConfusion hhost2
              · rw [if_neg hpe] at hhost2
                have hp : p.1 = hid := Option.some_inj.mp hhost2
                rw [← hp]
                exact hasKey_of_head _ _ hhead
          · rw [if_neg hh0] at hhost
            have hidne : hid ≠ sid := by
              intro he2
              rw [he2] at hhost
              exact hh0 hhost
            rw [hasKey_del_ne _ _ _ hidne]
            exact inv3 _ _ _ hroom0 hhost
        · rw [mapGet_set_ne _ _ _ _ h] at h2
          exact inv3 _ _ _ h2 hhost

/-- Every handler turn preserves the structural invariant. -/
theorem inv_stepF (s : ServerState) (e : Event) (hs : Inv s) : Inv (stepF s e) := by
  cases e with
  | joinRoom sid rid uname now => exact inv_applyJoin s sid rid uname now hs
  | videoChange sid v now =>
    exact inv_roomEvent s sid _ now (fun r => rfl) (fun r => rfl) hs
  | playPause sid d now =>
    exact inv_roomEvent s sid _ now (fun r => rfl) (fun r => rfl) hs
  | seek sid d now =>
    exact inv_roomEvent s sid _ now (fun r => rfl) (fun r => rfl) hs
  | heartbeat sid d now =>
    exact inv_roomEvent s sid _ now (fun r => heartbeat_users r sid d now)
      (fun r => heartbeat_hostId r sid d now) hs
  | stateUpdate sid d now =>
    exact inv_roomEvent s sid _ now (fun r => rfl) (fun r => rfl) hs
  | syncRequest sid now => exact hs
  | chatMessage sid m now => exact hs
  | disconnect sid now => exact inv_applyDisconnect s sid now hs

/-- Every reachable server state satisfies the structural invariant. -/
theorem inv_reachable (s : ServerState) (h : Reachable s) : Inv s := by
  induction h with
  | empty =>
    refine ⟨List.nodup_nil, List.nodup_nil, ?_, ?_, ?_⟩
    · intro sid rid hsr
      exact absurd hsr (by simp [mapGet])
    · intro rid room h2
      exact absurd h2 (by simp [mapGet])
    · intro rid room hid h2 _
      exact absurd h2 (by simp [mapGet])
  | step _ e ih => exact inv_stepF _ e ih

end Basic

namespace Enhanced

/-- A chat-history entry of the enhanced server: either a user message
(`type: 'user'`) or a system message (`type: 'system'`). -/
structure ChatMsg where
  username : String
  message : String
  timestamp : Rat
  mtype : String
deriving DecidableEq

/-- Room state of the enhanced server (second program of `src/server.js`);
it has no host and no `lastController`, but keeps a chat history. -/
structure ERoom where
  currentMedia : Option MediaData
  mediaType : Option String
  isPlaying : Bool
  currentTime : Rat
  lastUpdate : Rat
  chatHistory : List ChatMsg
deriving DecidableEq

/-- Everything an enhanced handler can emit: a media broadcast to the room,
a chat broadcast to the room (sender included), a playback echo to the other
members, or an `error` event back to the sender. -/
inductive EmitE where
  | mediaToRoom (v : MediaData)
  | chatToRoom (c : ChatMsg)
  | playbackToOthers (isPlaying : Bool) (currentTime : Rat)
  | errorToSender (msg : String)
deriving DecidableEq

/-- `validateMediaData(mediaData, type)` of the enhanced server. -/
def validateMediaData (m : Option MediaData) (t : String) : Bool :=
  match m with
  | none => false
  | some md =>
    if t = "youtube" then truthyStr md.videoId && truthyStr md.title
    else if t = "audio" then
      truthyStr md.id && truthyStr md.title && truthyStr md.previewUrl
    else false

/-- JS template interpolation of a possibly-absent field
(an `undefined` field prints as the string `undefined`). -/
def jsShow (o : Option String) : String :=
  o.getD "undefined"

/-- `video-change` handler of the enhanced server: validate, store the media
with playback reset, broadcast to everybody, and push a system chat message
(note: this push performs no 50-entry trim). -/
def videoChange (room : ERoom) (username : String) (v : MediaData) (now : Rat) :
    ERoom × List EmitE :=
  if validateMediaData (some v) "youtube" then
    let sys : ChatMsg :=
      { username := "System"
        message := username ++ " loaded: " ++ jsShow v.title
        timestamp := now
        mtype := "system" }
    ({ room with currentMedia := some v, mediaType := some "youtube"
               , isPlaying := false, currentTime := 0, lastUpdate := now
               , chatHistory := room.chatHistory ++ [sys] },
     [EmitE.mediaToRoom v, EmitE.chatToRoom sys])
  else
    (room, [EmitE.errorToSender "Invalid video data"])

/-- `audio-change` handler of the enhanced server (same shape as
`video-change`, with the audio validation and an `artist` in the system
message). -/
def audioChange (room : ERoom) (username : String) (v : MediaData) (now : Rat) :
    ERoom × List EmitE :=
  if validateMediaData (some v) "audio" then
    let sys : ChatMsg :=
      { username := "System"
        message := username ++ " loaded: " ++ jsShow v.title ++ " - " ++ jsShow v.artist
        timestamp := now
        mtype := "system" }
    ({ room with currentMedia := some v, mediaType := some "audio"
               , isPlaying := false, currentTime := 0, lastUpdate := now
               , chatHistory := room.chatHistory ++ [sys] },
     [EmitE.mediaToRoom v, EmitE.chatToRoom sys])
  else
    (room, [EmitE.errorToSender "Invalid audio data"])

/-- A playback payload of the enhanced server; `none` models a field that is
absent or not of the required JS type (`typeof` check fails). -/
structure EPayload where
  isPlaying : Option Bool
  currentTime : Option Rat
deriving DecidableEq

/-- `play-pause` handler of the enhanced server: reject unless `isPlaying`
is a boolean and `currentTime` a number; otherwise store the state with the
position clamped below at 0, and echo to the other members. -/
def playPause (room : ERoom) (d : EPayload) (now : Rat) : ERoom × List EmitE :=
  match d.isPlaying, d.currentTime with
  | some p, some c =>
    ({ room with isPlaying := p, currentTime := max 0 c, lastUpdate := now },
     [EmitE.playbackToOthers p c])
  | _, _ => (room, [EmitE.errorToSender "Invalid play-pause data"])

/-- `seek` handler of the enhanced server: reject unless `currentTime` is a
number; store `max(0, currentTime)` and `data.isPlaying || false`, and echo
to the other members. -/
def seek (room : ERoom) (d : EPayload) (now : Rat) : ERoom × List EmitE :=
  match d.currentTime with
  | some c =>
    ({ room with currentTime := max 0 c, isPlaying := d.isPlaying.getD false
               , lastUpdate := now },
     [EmitE.playbackToOthers (d.isPlaying.getD false) c])
  | none => (room, [EmitE.errorToSender "Invalid seek data"])

/-- The `sync-response` payload of the enhanced server. -/
structure SyncResp where
  currentTime : Rat
  isPlaying : Bool
  mediaType : Option String
  currentMedia : Option MediaData
  serverTime : Rat
deriving DecidableEq

/-- `sync-request` handler of the enhanced server: project the position
forward when playing, clamp below at 0, and clamp above at
`currentMedia.duration` — but only when `mediaType === 'audio'` and the
duration is truthy (`maxTime ? Math.min(syncTime, maxTime) : syncTime`).
Read-only. -/
def syncResponse (room : ERoom) (now : Rat) : SyncResp :=
  let timeSinceLastUpdate := (now - room.lastUpdate) / 1000
  let estimatedCurrentTime :=
    room.currentTime + (if room.isPlaying then timeSinceLastUpdate else 0)
  let maxTime : Option Rat :=
    match room.currentMedia with
    | some m =>
      if room.mediaType = some "audio" && truthyNum m.duration then m.duration
      else none
    | none => none
  let syncTime := max 0 estimatedCurrentTime
  let finalTime :=
    if truthyNum maxTime then min syncTime (maxTime.getD 0) else syncTime
  { currentTime := finalTime
    isPlaying := room.isPlaying
    mediaType := room.mediaType
    currentMedia := room.currentMedia
    serverTime := now }

/-- `room.chatHistory.push(...)` followed by the conditional
`chatHistory = chatHistory.slice(-50)` trim. -/
def pushTrimmed (hist : List ChatMsg) (c : ChatMsg) : List ChatMsg :=
  let h := hist ++ [c]
  if h.length > 50 then h.drop (h.length - 50) else h

/-- `chat-message` handler of the enhanced server: non-strings and the empty
string are dropped (`!message`), then the trimmed text must be nonempty and
at most 500 characters; invalid messages return silently — nothing at all is
emitted, not even an error.  Valid messages are appended (with the trim to
the last 50 entries) and broadcast to the whole room. -/
def chatMessage (room : ERoom) (username : String) (msg : Option String)
    (now : Rat) : ERoom × List EmitE :=
  match msg with
  | none => (room, [])
  | some m =>
    if m = "" then (room, [])
    else
      let trimmedMessage := jsTrim m
      if trimmedMessage = "" ∨ trimmedMessage.length > 500 then (room, [])
      else
        let c : ChatMsg :=
          { username := username, message := trimmedMessage
            timestamp := now, mtype := "user" }
        ({ room with chatHistory := pushTrimmed room.chatHistory c },
         [EmitE.chatToRoom c])

theorem chatMessage_some_eq (room : ERoom) (u m : String) (now : Rat) :
    chatMessage room u (some m) now =
      if m = "" then (room, [])
      else if jsTrim m = "" ∨ (jsTrim m).length > 500 then (room, [])
      else
        ({ room with chatHistory := (pushTrimmed room.chatHistory
             { username := u, message := jsTrim m, timestamp := now, mtype := "user" }) },
         [EmitE.chatToRoom
             { username := u, message := jsTrim m, timestamp := now, mtype := "user" }]) :=
  rfl

/-- The system chat push of the enhanced `disconnect` handler
(`${username} left the room`); again no trim is applied. -/
def disconnectSystemPush (room : ERoom) (username : String) (now : Rat) : ERoom :=
  { room with chatHistory := room.chatHistory ++
      [{ username := "System", message := username ++ " left the room"
         timestamp := now, mtype := "system" }] }

end Enhanced

/-! ### Concrete fixtures used by counterexamples and witnesses -/

/-- Member entry for socket `"A"`. -/
def annUser : Basic.User := { id := "A", username := "Ann" }

/-- Member entry for socket `"B"`. -/
def bobUser : Basic.User := { id := "B", username := "Bob" }

/-- The state after `"A"` and `"B"` joined room `"r"` from a fresh server. -/
def state1 : Basic.ServerState :=
  Basic.stepF
    (Basic.stepF Basic.ServerState.empty
      (Basic.Event.joinRoom "A" "r" (some "Ann") 0))
    (Basic.Event.joinRoom "B" "r" (some "Bob") 1)

theorem reachable_state1 : Basic.Reachable state1 :=
  Basic.Reachable.step (Basic.Reachable.step Basic.Reachable.empty _) _

/-- The room `"r"` as it stands inside `state1`. -/
def room1 : Basic.Room :=
  { currentVideo := none, isPlaying := false, currentTime := 0, lastUpdate := 0
    lastController := none
    users := [("A", annUser), ("B", bobUser)]
    hostId := some "A" }

/-- A basic room whose last controller is `"A"` and whose last update is
recent relative to the times used below. -/
def roomW1 : Basic.Room :=
  { currentVideo := none, isPlaying := false, currentTime := 7, lastUpdate := 1000
    lastController := some "A"
    users := [("A", annUser), ("B", bobUser)]
    hostId := some "A" }

/-- A basic room that is currently playing. -/
def roomP : Basic.Room :=
  { currentVideo := none, isPlaying := true, currentTime := 42, lastUpdate := 0
    lastController := some "A"
    users := [("A", annUser)]
    hostId := some "A" }

/-- A basic room holding audio media with a known duration of 30 seconds,
paused far beyond that duration. -/
def roomS : Basic.Room :=
  { currentVideo := some { title := some "T", duration := some 30
                         , mtype := some "audio" }
    isPlaying := false, currentTime := 100, lastUpdate := 0
    lastController := none
    users := [("A", annUser)]
    hostId := some "A" }

/-- An empty enhanced room. -/
def emptyERoom : Enhanced.ERoom :=
  { currentMedia := none, mediaType := none, isPlaying := false
    currentTime := 0, lastUpdate := 0, chatHistory := [] }

/-- An enhanced room that is playing at position 5. -/
def eroom1 : Enhanced.ERoom :=
  { currentMedia := none, mediaType := none, isPlaying := true
    currentTime := 5, lastUpdate := 0, chatHistory := [] }

/-- A media payload that passes both the youtube and the audio validation. -/
def validMedia : MediaData :=
  { videoId := some "abc", id := some "1", title := some "X"
    artist := some "Y", previewUrl := some "p", duration := some 30
    mtype := some "audio" }

/-- The enhanced room obtained from the empty room by 50 valid user chat
messages (the chat handler keeps the history at 50). -/
def after50Chats : Enhanced.ERoom :=
  (List.range 50).foldl
    (fun r _ => (Enhanced.chatMessage r "u" (some "hi") 0).1) emptyERoom

/-! ### Spec-side definitions (from the claim wording, for comparison) -/

/-- Claim form of the sync estimate (C5 wording): clamp below at 0 and above
at the current media's duration whenever that duration is known.  This
follows the spec text, not the code. -/
def claimSyncEstimate (room : Basic.Room) (now : Rat) : Rat :=
  let elapsed := (now - room.lastUpdate) / 1000
  let est := room.currentTime + (if room.isPlaying then elapsed else 0)
  let lo := max 0 est
  match room.currentVideo with
  | some m =>
    match m.duration with
    | some d => min lo d
    | none => lo
  | none => lo

/-- Amended form of the basic sync estimate: clamp below at 0 only. -/
def specSyncBasic (room : Basic.Room) (now : Rat) : Rat :=
  max 0 (room.currentTime +
    (if room.isPlaying then (now - room.lastUpdate) / 1000 else 0))

/-- Amended form of the enhanced sync estimate: clamp below at 0, and above
at the duration only when the media type is `audio` and the duration is
present and nonzero. -/
def specSyncEnhanced (room : Enhanced.ERoom) (now : Rat) : Rat :=
  let lo := max 0 (room.currentTime +
    (if room.isPlaying then (now - room.lastUpdate) / 1000 else 0))
  match room.currentMedia with
  | some m =>
    match m.duration with
    | some d => if room.mediaType = some "audio" ∧ d ≠ 0 then min lo d else lo
    | none => lo
  | none => lo

/-! ### Claim theorems -/

/-- Claim C1, counterexample: a `state-update` from a member that is neither
the last controller nor past the 10-second staleness window still mutates
the room (the claim says the room must be left entirely unchanged).  Sender
`"B"` at time 2000, last controller `"A"`, last update 1000. -/
theorem C1_cex :
    ¬(roomW1.lastController = some "B" ∨ (2000 : Rat) - roomW1.lastUpdate > 10000) ∧
    Basic.stateUpdate roomW1 "B" { isPlaying := true, currentTime := some 50 } 2000 ≠ roomW1 := by
  constructor
  · rintro (h | h)
    · exact absurd h (by decide)
    · rw [show roomW1.lastUpdate = 1000 from rfl] at h
      norm_num at h
  · intro h
    have hc := congrArg Basic.Room.currentTime h
    rw [show (Basic.stateUpdate roomW1 "B"
      { isPlaying := true, currentTime := some 50 } 2000).currentTime = 50 from rfl,
      show roomW1.currentTime = 7 from rfl] at hc
    norm_num at hc

/-- Claim C1, amended: the authority check (controller, or staleness beyond
10000 ms) gates only the `heartbeat` event — accepted iff the check passes,
with the room otherwise untouched and nothing broadcast; `state-update` is
applied and broadcast unconditionally and also records the sender as
`lastController`. -/
theorem C1_periodic_update_authority (room : Basic.Room) (sid : String)
    (d : Basic.StatePayload) (now : Rat) :
    ((Basic.heartbeat room sid d now).2 = true ↔
      (room.lastController = some sid ∨ now - room.lastUpdate > 10000)) ∧
    ((Basic.heartbeat room sid d now).2 = false →
      (Basic.heartbeat room sid d now).1 = room) ∧
    ((Basic.heartbeat room sid d now).2 = true →
      (Basic.heartbeat room sid d now).1 =
        { room with isPlaying := d.isPlaying, currentTime := jsNumOr d.currentTime
                  , lastUpdate := now }) ∧
    (Basic.stateUpdate room sid d now =
      { room with isPlaying := d.isPlaying, currentTime := jsNumOr d.currentTime
                , lastUpdate := now, lastController := some sid }) := by
  unfold Basic.heartbeat
  by_cases hc : room.lastController = some sid ∨ now - room.lastUpdate > 10000
  · rw [if_pos hc]
    exact ⟨⟨fun _ => hc, fun _ => rfl⟩, fun h => absurd h (by simp), fun _ => rfl, rfl⟩
  · rw [if_neg hc]
    exact ⟨⟨fun h => absurd h (by simp), fun h => absurd h hc⟩, fun _ => rfl,
      fun h => absurd h (by simp), rfl⟩

/-- Witness for C1: a heartbeat from the current controller `"A"` is
accepted and applies exactly the field update. -/
theorem C1_periodic_update_authority_witness :
    (Basic.heartbeat roomW1 "A" { isPlaying := true, currentTime := some 3 } 2000).1 =
      { roomW1 with isPlaying := true, currentTime := jsNumOr (some 3)
                  , lastUpdate := 2000 } :=
  (C1_periodic_update_authority roomW1 "A"
    { isPlaying := true, currentTime := some 3 } 2000).2.2.1 (by decide)

/-- Claim C4: a media change always resets playback — `isPlaying = false`
and `position = 0` — in the basic `video-change` handler unconditionally,
and in the enhanced `video-change`/`audio-change` handlers whenever the
payload passes validation (i.e. whenever the change is accepted). -/
theorem C4_media_change_resets (room : Basic.Room) (sid : String) (v : MediaData)
    (now : Rat) (eroom : Enhanced.ERoom) (u : String) :
    ((Basic.videoChange room sid v now).isPlaying = false ∧
     (Basic.videoChange room sid v now).currentTime = 0) ∧
    (Enhanced.validateMediaData (some v) "youtube" = true →
      (Enhanced.videoChange eroom u v now).1.isPlaying = false ∧
      (Enhanced.videoChange eroom u v now).1.currentTime = 0) ∧
    (Enhanced.validateMediaData (some v) "audio" = true →
      (Enhanced.audioChange eroom u v now).1.isPlaying = false ∧
      (Enhanced.audioChange eroom u v now).1.currentTime = 0) := by
  refine ⟨⟨rfl, rfl⟩, ?_, ?_⟩
  · intro hv
    unfold Enhanced.videoChange
    rw [if_pos hv]
    exact ⟨rfl, rfl⟩
  · intro hv
    unfold Enhanced.audioChange
    rw [if_pos hv]
    exact ⟨rfl, rfl⟩

/-- Witness for C4: a concrete payload that passes both validations resets
playback in both enhanced handlers. -/
theorem C4_media_change_resets_witness :
    ((Enhanced.videoChange eroom1 "u" validMedia 9).1.isPlaying = false ∧
     (Enhanced.videoChange eroom1 "u" validMedia 9).1.currentTime = 0) ∧
    ((Enhanced.audioChange eroom1 "u" validMedia 9).1.isPlaying = false ∧
     (Enhanced.audioChange eroom1 "u" validMedia 9).1.currentTime = 0) :=
  ⟨(C4_media_change_resets room1 "A" validMedia 9 eroom1 "u").2.1 (by decide),
   (C4_media_change_resets room1 "A" validMedia 9 eroom1 "u").2.2 (by decide)⟩

/-- Claim C7, counterexample: the room is playing, yet a `seek` whose payload
omits `isPlaying` leaves the room paused — `data.isPlaying || false` maps an
absent field to `false` instead of preserving the current value. -/
theorem C7_cex :
    roomP.isPlaying = true ∧
    (Basic.seek roomP "A" { currentTime := 5, isPlaying := none } 9).isPlaying = false := by
  decide

/-- Claim C7, amended: a `seek` without `isPlaying` sets `isPlaying` to
`false` (it does not preserve the current play state); the position is
stored raw by the basic handler and as `max(0, position)` by the enhanced
handler; `lastUpdate` (and, in the basic handler, `lastController`) are
updated. -/
theorem C7_seek_without_isPlaying (room : Basic.Room) (sid : String) (pos : Rat)
    (now : Rat) (eroom : Enhanced.ERoom) :
    (Basic.seek room sid { currentTime := pos, isPlaying := none } now =
      { room with currentTime := pos, isPlaying := false, lastUpdate := now
                , lastController := some sid }) ∧
    ((Enhanced.seek eroom { isPlaying := none, currentTime := some pos } now).1 =
      { eroom with currentTime := max 0 pos, isPlaying := false
                 , lastUpdate := now }) :=
  ⟨rfl, rfl⟩

/-- Claim C5, counterexample: the basic `sync-request` handler never clamps
the estimate above at the media duration.  In `roomS` the stored position is
100 with a known audio duration of 30; the code answers 100, the claim's
formula answers 30. -/
theorem C5_cex :
    (Basic.syncResponse roomS 5000).currentTime = 100 ∧
    claimSyncEstimate roomS 5000 = 30 ∧
    (100 : Rat) ≠ 30 := by
  refine ⟨?_, ?_, by norm_num⟩
  · show max 0 (roomS.currentTime +
      (if roomS.isPlaying then ((5000 : Rat) - roomS.lastUpdate) / 1000 else 0)) = 100
    norm_num [roomS]
  · show min (max 0 (roomS.currentTime +
      (if roomS.isPlaying then ((5000 : Rat) - roomS.lastUpdate) / 1000 else 0))) 30 = 30
    norm_num [roomS]

/-- Claim C5, amended: the estimate is `position` plus the elapsed seconds
when playing, clamped below at 0; the basic handlers never clamp above, and
the enhanced handler clamps above at the duration only when the media type
is `audio` and the duration is present and nonzero.  A `sync-request` never
mutates the server state. -/
theorem C5_sync_estimate (room : Basic.Room) (eroom : Enhanced.ERoom)
    (s : Basic.ServerState) (sid : String) (now : Rat) :
    (Basic.syncResponse room now).currentTime = specSyncBasic room now ∧
    (Enhanced.syncResponse eroom now).currentTime = specSyncEnhanced eroom now ∧
    Basic.stepF s (Basic.Event.syncRequest sid now) = s := by
  refine ⟨rfl, ?_, rfl⟩
  unfold Enhanced.syncResponse specSyncEnhanced
  cases hm : eroom.currentMedia with
  | none => simp [truthyNum]
  | some m =>
    cases hd : m.duration with
    | none => simp [truthyNum, hd]
    | some d =>
      by_cases hmt : eroom.mediaType = some "audio"
      · by_cases hd0 : d = 0
        · subst hd0
          simp [truthyNum, hmt, hd]
        · simp [truthyNum, hmt, hd, hd0]
      · simp [truthyNum, hmt, hd]

/-- Claim C6, counterexample: the basic `seek` handler stores a negative
numeric position unchanged, so the position invariant `position ≥ 0` fails
on the code. -/
theorem C6_cex :
    (Basic.seek roomP "A" { currentTime := -5, isPlaying := none } 7).currentTime < 0 := by
  show (-5 : Rat) < 0
  norm_num

/-- Claim C6, amended: the enhanced handlers keep the position non-negative
(play-pause and seek clamp with `Math.max(0, …)`, media changes reset to 0,
rejllected events leave the room unchanged), but the basic handlers store the
raw numeric input: `seek` stores it verbatim and `play-pause` stores
`data.currentTime || 0`, so negative inputs make the position negative. -/
theorem C6_position_nonneg (eroom : Enhanced.ERoom) (d : Enhanced.EPayload)
    (u : String) (v : MediaData) (now : Rat) (room : Basic.Room) (sid : String)
    (sd : Basic.SeekPayload) (pb : Bool) (c : Rat) (h : 0 ≤ eroom.currentTime) :
    0 ≤ (Enhanced.playPause eroom d now).1.currentTime ∧
    0 ≤ (Enhanced.seek eroom d now).1.currentTime ∧
    0 ≤ (Enhanced.videoChange eroom u v now).1.currentTime ∧
    0 ≤ (Enhanced.audioChange eroom u v now).1.currentTime ∧
    (Basic.videoChange room sid v now).currentTime = 0 ∧
    (Basic.seek room sid sd now).currentTime = sd.currentTime ∧
    (Basic.playPause room sid { isPlaying := pb, currentTime := some c } now).currentTime = c := by
  refine ⟨?_, ?_, ?_, ?_, rfl, rfl, rfl⟩
  · rcases d with ⟨ip, ct⟩
    cases ip <;> cases ct <;> first
      | exact h
      | exact le_max_left 0 _
  · rcases d with ⟨ip, ct⟩
    cases ct <;> first
      | exact h
      | exact le_max_left 0 _
  · unfold Enhanced.videoChange
    split
    · exact le_refl 0
    · exact h
  · unfold Enhanced.audioChange
    split
    · exact le_refl 0
    · exact h

/-- Witness for C6: a negative enhanced play-pause position is clamped to 0,
while the basic seek stores −5 verbatim. -/
theorem C6_position_nonneg_witness :
    0 ≤ (Enhanced.playPause eroom1
      { isPlaying := some true, currentTime := some (-3) } 9).1.currentTime ∧
    (Basic.seek room1 "A" { currentTime := -5, isPlaying := none } 7).currentTime = -5 := by
  have H := C6_position_nonneg eroom1 { isPlaying := some true, currentTime := some (-3) }
    "u" validMedia 9 room1 "A" { currentTime := -5, isPlaying := none } true (-3)
    (by show (0 : Rat) ≤ 5; norm_num)
  exact ⟨H.1, H.2.2.2.2.2.1⟩

set_option maxRecDepth 10000 in
/-- Claim C8 (code bug): the 50-entry trim runs only inside the user chat
handler; the system-message pushes (`video-change`, `audio-change`,
`disconnect`) append without trimming.  Starting from an empty room, 50
valid chats keep the history at 50, and one accepted `video-change` then
leaves 51 entries, exceeding the claimed bound. -/
theorem C8_system_push_overflow :
    after50Chats.chatHistory.length = 50 ∧
    (Enhanced.videoChange after50Chats "u" validMedia 9).1.chatHistory.length = 51 := by
  decide

/-- Claim C9, counterexample: an empty chat message is dropped silently by
the enhanced handler — no broadcast, no state change, and also no rejection
notice to the sender (the emission list is empty, where the claim demands a
rejection event); the basic handler, with no validation at all, still
broadcasts the empty message to the whole room. -/
theorem C9_cex :
    Enhanced.chatMessage emptyERoom "u" (some "") 5 = (emptyERoom, []) ∧
    Basic.chatMessage "Ann" "A" "" 5 =
      { username := "Ann", message := "", timestamp := 5, userId := "A" } :=
  ⟨rfl, rfl⟩

/-- Claim C9, amended: in the enhanced handler a non-string, empty,
empty-after-trim or over-500-character chat is dropped silently — no
broadcast, no state change and no notice of any kind to the sender — while
a valid chat is appended to the capped history and broadcast to the whole
room including the sender; the basic handler performs no validation and
broadcasts every chat (trimmed) unconditionally. -/
theorem C9_chat_validation (room : Enhanced.ERoom) (u m sid : String) (now : Rat) :
    (Enhanced.chatMessage room u none now = (room, [])) ∧
    (jsTrim m = "" ∨ (jsTrim m).length > 500 →
      Enhanced.chatMessage room u (some m) now = (room, [])) ∧
    (jsTrim m ≠ "" → (jsTrim m).length ≤ 500 →
      Enhanced.chatMessage room u (some m) now =
        ({ room with chatHistory := (Enhanced.pushTrimmed room.chatHistory
             { username := u, message := jsTrim m, timestamp := now, mtype := "user" }) },
         [Enhanced.EmitE.chatToRoom
             { username := u, message := jsTrim m, timestamp := now, mtype := "user" }])) ∧
    (Basic.chatMessage u sid m now =
      { username := u, message := jsTrim m, timestamp := now, userId := sid }) := by
  refine ⟨rfl, ?_, ?_, rfl⟩
  · intro hbad
    rw [Enhanced.chatMessage_some_eq]
    by_cases hm0 : m = ""
    · rw [if_pos hm0]
    · rw [if_neg hm0, if_pos hbad]
  · intro h1 h2
    have hm0 : m ≠ "" := by
      intro he
      apply h1
      rw [he]
      rfl
    rw [Enhanced.chatMessage_some_eq]
    rw [if_neg hm0, if_neg (not_or.mpr ⟨h1, Nat.not_lt.mpr h2⟩)]

/-- Witness for C9: a whitespace-only chat is dropped with no emission, and
a valid chat is appended and broadcast. -/
theorem C9_chat_validation_witness :
    Enhanced.chatMessage emptyERoom "u" (some "   ") 5 = (emptyERoom, []) ∧
    Enhanced.chatMessage emptyERoom "u" (some "hello") 5 =
      ({ emptyERoom with chatHistory := (Enhanced.pushTrimmed emptyERoom.chatHistory
           { username := "u", message := jsTrim "hello", timestamp := 5, mtype := "user" }) },
       [Enhanced.EmitE.chatToRoom
           { username := "u", message := jsTrim "hello", timestamp := 5, mtype := "user" }]) :=
  ⟨(C9_chat_validation emptyERoom "u" "   " "A" 5).2.1 (Or.inl (by decide)),
   (C9_chat_validation emptyERoom "u" "hello" "A" 5).2.2.1 (by decide) (by decide)⟩

/-- Claim C2: in every reachable state a registered room has at least one
member; a `join-room` always leaves the joined room registered; and the
`disconnect` handler deletes the room exactly when the leaver's session
points at it and removing the leaver empties its member map. -/
theorem C2_registry_nonempty (s : Basic.ServerState) (h : Basic.Reachable s)
    (rid : String) :
    (∀ room, mapGet s.rooms rid = some room → room.users ≠ []) ∧
    (∀ sid2 uname2 now2,
      (mapGet (Basic.stepF s
        (Basic.Event.joinRoom sid2 rid uname2 now2)).rooms rid).isSome = true) ∧
    (∀ room sid2 now2, mapGet s.rooms rid = some room →
      (mapGet (Basic.stepF s (Basic.Event.disconnect sid2 now2)).rooms rid = none ↔
        (Basic.sessionRoomId s sid2 = some rid ∧ mapDelete room.users sid2 = []))) := by
  obtain ⟨ndS, ndR, inv1, inv2, inv3⟩ := Basic.inv_reachable s h
  refine ⟨fun room hr => inv2 rid room hr, ?_, ?_⟩
  · intro sid2 uname2 now2
    show (mapGet (Basic.applyJoin s sid2 rid uname2 now2).rooms rid).isSome = true
    rw [show (Basic.applyJoin s sid2 rid uname2 now2).rooms =
        mapSet s.rooms rid (Basic.joinRoomUpd (Basic.getRoomOr s.rooms rid now2) sid2
          (jsStrOr uname2 (Basic.defaultName sid2))) from rfl]
    rw [mapGet_set_self]
    rfl
  · intro room sid2 now2 hr
    show mapGet (Basic.applyDisconnect s sid2 now2).rooms rid = none ↔ _
    cases hsr : Basic.sessionRoomId s sid2 with
    | none =>
      have heq : Basic.applyDisconnect s sid2 now2 =
          { s with sockets := mapDelete s.sockets sid2 } := by
        unfold Basic.applyDisconnect
        rw [hsr]
      rw [heq]
      constructor
      · intro hnone
        rw [show ({ s with sockets := mapDelete s.sockets sid2 } :
          Basic.ServerState).rooms = s.rooms from rfl, hr] at hnone
        exact Option.noConfusion hnone
      · rintro ⟨hfalse, -⟩
        exact Option.noConfusion hfalse
    | some rid0 =>
      have heq : Basic.applyDisconnect s sid2 now2 =
          { rooms :=
              if (Basic.disconnectRoom (Basic.getRoomOr s.rooms rid0 now2)
                  sid2).users.isEmpty then
                mapDelete s.rooms rid0
              else
                mapSet s.rooms rid0
                  (Basic.disconnectRoom (Basic.getRoomOr s.rooms rid0 now2) sid2)
            sockets := mapDelete s.sockets sid2 } := by
        unfold Basic.applyDisconnect
        rw [hsr]
      rw [heq]
      by_cases hrid : rid0 = rid
      · subst hrid
        have hgro : Basic.getRoomOr s.rooms rid0 now2 = room := by
          simp [Basic.getRoomOr, hr]
        rw [hgro]
        by_cases hE : (Basic.disconnectRoom room sid2).users.isEmpty = true
        · rw [if_pos hE]
          rw [show ({ rooms := mapDelete s.rooms rid0
                    , sockets := mapDelete s.sockets sid2 } :
            Basic.ServerState).rooms = mapDelete s.rooms rid0 from rfl]
          rw [mapGet_del_self _ _ ndR]
          constructor
          · intro _
            refine ⟨rfl, ?_⟩
            rw [Basic.disconnectRoom_users] at hE
            exact List.isEmpty_iff.mp hE
          · intro _
            rfl
        · rw [if_neg hE]
          rw [show ({ rooms := mapSet s.rooms rid0 (Basic.disconnectRoom room sid2)
                    , sockets := mapDelete s.sockets sid2 } :
            Basic.ServerState).rooms =
            mapSet s.rooms rid0 (Basic.disconnectRoom room sid2) from rfl]
          rw [mapGet_set_self]
          constructor
          · intro hcontra
            exact Option.noConfusion hcontra
          · rintro ⟨-, hdel⟩
            exfalso
            apply hE
            rw [Basic.disconnectRoom_users, hdel]
            rfl
      · have hne : rid ≠ rid0 := fun he => hrid he.symm
        constructor
        · intro hnone
          exfalso
          by_cases hE : (Basic.disconnectRoom (Basic.getRoomOr s.rooms rid0 now2)
              sid2).users.isEmpty = true
          · rw [if_pos hE] at hnone
            rw [show ({ rooms := mapDelete s.rooms rid0
                      , sockets := mapDelete s.sockets sid2 } :
              Basic.ServerState).rooms = mapDelete s.rooms rid0 from rfl] at hnone
            rw [mapGet_del_ne _ _ _ hne, hr] at hnone
            exact Option.noConfusion hnone
          · rw [if_neg hE] at hnone
            rw [show ({ rooms := (mapSet s.rooms rid0
                          (Basic.disconnectRoom (Basic.getRoomOr s.rooms rid0 now2) sid2))
                      , sockets := mapDelete s.sockets sid2 } :
              Basic.ServerState).rooms = mapSet s.rooms rid0
                (Basic.disconnectRoom (Basic.getRoomOr s.rooms rid0 now2) sid2) from rfl]
              at hnone
            rw [mapGet_set_ne _ _ _ _ hne, hr] at hnone
            exact Option.noConfusion hnone
        · rintro ⟨hsome, -⟩
          exact absurd (Option.some_inj.mp hsome) hrid

/-- Witness for C2: in the two-member room of `state1`, the member map is
nonempty, a further join keeps the room registered, and the disconnect of
one of two members does not delete it. -/
theorem C2_registry_nonempty_witness :
    room1.users ≠ [] ∧
    (mapGet (Basic.stepF state1
      (Basic.Event.joinRoom "C" "r" (some "Cay") 2)).rooms "r").isSome = true ∧
    (mapGet (Basic.stepF state1 (Basic.Event.disconnect "A" 3)).rooms "r" = none ↔
      (Basic.sessionRoomId state1 "A" = some "r" ∧ mapDelete room1.users "A" = [])) := by
  have H := C2_registry_nonempty state1 reachable_state1 "r"
  exact ⟨H.1 room1 (by decide), H.2.1 "C" (some "Cay") 2,
    H.2.2 room1 "A" 3 (by decide)⟩

/-- Claim C3: in every reachable state the host of a registered room is one
of its members (or null), and when the host disconnects while members
remain, the insertion-order head of the remaining member map becomes the
new host (provided its socket id is nonempty — socket.io ids always are;
an empty-string id would be nulled by `|| null`). -/
theorem C3_host_invariant (s : Basic.ServerState) (h : Basic.Reachable s) :
    (∀ rid room hid, mapGet s.rooms rid = some room → room.hostId = some hid →
      hasKey room.users hid = true) ∧
    (∀ sid rid room now p rest,
      Basic.sessionRoomId s sid = some rid →
      mapGet s.rooms rid = some room →
      room.hostId = some sid →
      mapDelete room.users sid = p :: rest →
      p.1 ≠ "" →
      ∃ room2,
        mapGet (Basic.stepF s (Basic.Event.disconnect sid now)).rooms rid = some room2 ∧
        room2.hostId = some p.1) := by
  obtain ⟨ndS, ndR, inv1, inv2, inv3⟩ := Basic.inv_reachable s h
  refine ⟨fun rid room hid hr hh => inv3 rid room hid hr hh, ?_⟩
  intro sid rid room now p rest hsr hr hh hdel hp
  show ∃ room2,
    mapGet (Basic.applyDisconnect s sid now).rooms rid = some room2 ∧
    room2.hostId = some p.1
  have heq : Basic.applyDisconnect s sid now =
      { rooms :=
          if (Basic.disconnectRoom (Basic.getRoomOr s.rooms rid now)
              sid).users.isEmpty then
            mapDelete s.rooms rid
          else
            mapSet s.rooms rid
              (Basic.disconnectRoom (Basic.getRoomOr s.rooms rid now) sid)
        sockets := mapDelete s.sockets sid } := by
    unfold Basic.applyDisconnect
    rw [hsr]
  rw [heq]
  have hgro : Basic.getRoomOr s.rooms rid now = room := by
    simp [Basic.getRoomOr, hr]
  rw [hgro]
  have hE : (Basic.disconnectRoom room sid).users.isEmpty = false := by
    rw [Basic.disconnectRoom_users, hdel]
    rfl
  rw [if_neg (by rw [hE]; exact Bool.false_ne_true)]
  rw [show ({ rooms := mapSet s.rooms rid (Basic.disconnectRoom room sid)
            , sockets := mapDelete s.sockets sid } :
    Basic.ServerState).rooms = mapSet s.rooms rid (Basic.disconnectRoom room sid)
    from rfl]
  refine ⟨Basic.disconnectRoom room sid, mapGet_set_self _ _ _, ?_⟩
  rw [Basic.disconnectRoom_hostId, if_pos hh, hdel]
  show (if p.1 = "" then none else some p.1) = some p.1
  rw [if_neg hp]

/-- Witness for C3: host `"A"` is a member of `room1`; after `"A"`
disconnects from `state1`, the earliest-joined remaining member `"B"` is the
new host. -/
theorem C3_host_invariant_witness :
    hasKey room1.users "A" = true ∧
    (∃ room2,
      mapGet (Basic.stepF state1 (Basic.Event.disconnect "A" 5)).rooms "r" =
        some room2 ∧
      room2.hostId = some "B") := by
  have H := C3_host_invariant state1 reachable_state1
  refine ⟨H.1 "r" room1 "A" (by decide) (by decide), ?_⟩
  exact H.2 "A" "r" room1 5 ("B", bobUser) [] (by decide) (by decide) (by decide)
    (by decide) (by decide)

/-- The room created when `"B"` joins the fresh room `"q"` of `state1` at
time 7. -/
def r2JoinFix : Basic.Room :=
  { currentVideo := none, isPlaying := false, currentTime := 0, lastUpdate := 7
    lastController := none, users := [("B", bobUser)], hostId := some "B" }

/-- The room `"r"` of `state1` after `"B"` disconnects. -/
def r2DiscFix : Basic.Room :=
  { currentVideo := none, isPlaying := false, currentTime := 0, lastUpdate := 0
    lastController := none, users := [("A", annUser)], hostId := some "A" }

/-- Claim C10: the heartbeat handler never writes `lastController` (in
either branch of the authority check, so a stale-authority takeover does not
transfer controller status), while `state-update`, `video-change`,
`play-pause` and `seek` set it to the sender; `join-room` and `disconnect`
preserve every surviving room's `lastController`, and `sync-request` and
`chat-message` do not change the server state at all. -/
theorem C10_heartbeat_controller_frame (room : Basic.Room) (sid : String)
    (d : Basic.StatePayload) (sd : Basic.SeekPayload) (v : MediaData) (now : Rat)
    (s : Basic.ServerState) (m : String) (rid : String) (uname : Option String)
    (hreach : Basic.Reachable s) :
    ((Basic.heartbeat room sid d now).1.lastController = room.lastController) ∧
    ((Basic.stateUpdate room sid d now).lastController = some sid) ∧
    ((Basic.videoChange room sid v now).lastController = some sid) ∧
    ((Basic.playPause room sid d now).lastController = some sid) ∧
    ((Basic.seek room sid sd now).lastController = some sid) ∧
    (∀ rid2 r2,
      mapGet (Basic.stepF s (Basic.Event.joinRoom sid rid uname now)).rooms rid2 =
        some r2 →
      r2.lastController = (mapGet s.rooms rid2).bind (fun r0 => r0.lastController)) ∧
    (∀ rid2 r2,
      mapGet (Basic.stepF s (Basic.Event.disconnect sid now)).rooms rid2 = some r2 →
      r2.lastController = (mapGet s.rooms rid2).bind (fun r0 => r0.lastController)) ∧
    (Basic.stepF s (Basic.Event.syncRequest sid now) = s) ∧
    (Basic.stepF s (Basic.Event.chatMessage sid m now) = s) := by
  obtain ⟨ndS, ndR, inv1, inv2, inv3⟩ := Basic.inv_reachable s hreach
  refine ⟨?_, rfl, rfl, rfl, rfl, ?_, ?_, rfl, rfl⟩
  · unfold Basic.heartbeat
    split <;> rfl
  · intro rid2 r2 hm
    have hm2 : mapGet (mapSet s.rooms rid
        (Basic.joinRoomUpd (Basic.getRoomOr s.rooms rid now) sid
          (jsStrOr uname (Basic.defaultName sid)))) rid2 = some r2 := hm
    by_cases hq : rid2 = rid
    · subst hq
      rw [mapGet_set_self] at hm2
      have he := Option.some_inj.mp hm2
      rw [← he]
      show (Basic.getRoomOr s.rooms rid2 now).lastController = _
      cases hg : mapGet s.rooms rid2 with
      | none => simp [Basic.getRoomOr, hg, Basic.Room.fresh]
      | some r0 => simp [Basic.getRoomOr, hg]
    · rw [mapGet_set_ne _ _ _ _ hq] at hm2
      rw [hm2]
      rfl
  · intro rid2 r2 hm
    cases hsr : Basic.sessionRoomId s sid with
    | none =>
      have heq : Basic.applyDisconnect s sid now =
          { s with sockets := mapDelete s.sockets sid } := by
        unfold Basic.applyDisconnect
        rw [hsr]
      have hm2 : mapGet s.rooms rid2 = some r2 := by
        have hm3 : mapGet (Basic.applyDisconnect s sid now).rooms rid2 = some r2 := hm
        rw [heq] at hm3
        exact hm3
      rw [hm2]
      rfl
    | some rid0 =>
      have heq : Basic.applyDisconnect s sid now =
          { rooms :=
              if (Basic.disconnectRoom (Basic.getRoomOr s.rooms rid0 now)
                  sid).users.isEmpty then
                mapDelete s.rooms rid0
              else
                mapSet s.rooms rid0
                  (Basic.disconnectRoom (Basic.getRoomOr s.rooms rid0 now) sid)
            sockets := mapDelete s.sockets sid } := by
        unfold Basic.applyDisconnect
        rw [hsr]
      have hm2 : mapGet
          (if (Basic.disconnectRoom (Basic.getRoomOr s.rooms rid0 now)
              sid).users.isEmpty then
            mapDelete s.rooms rid0
          else
            mapSet s.rooms rid0
              (Basic.disconnectRoom (Basic.getRoomOr s.rooms rid0 now) sid)) rid2 =
          some r2 := by
        have hm3 : mapGet (Basic.applyDisconnect s sid now).rooms rid2 = some r2 := hm
        rw [heq] at hm3
        exact hm3
      by_cases hE : (Basic.disconnectRoom (Basic.getRoomOr s.rooms rid0 now)
          sid).users.isEmpty = true
      · rw [if_pos hE] at hm2
        rw [mapGet_del_some _ _ _ _ ndR hm2]
        rfl
      · rw [if_neg hE] at hm2
        by_cases hq : rid2 = rid0
        · subst hq
          rw [mapGet_set_self] at hm2
          have he := Option.some_inj.mp hm2
          rw [← he]
          show (Basic.getRoomOr s.rooms rid2 now).lastController = _
          cases hg : mapGet s.rooms rid2 with
          | none => simp [Basic.getRoomOr, hg, Basic.Room.fresh]
          | some r0 => simp [Basic.getRoomOr, hg]
        · rw [mapGet_set_ne _ _ _ _ hq] at hm2
          rw [hm2]
          rfl

/-- Witness for C10: a heartbeat from non-controller `"B"` leaves
`lastController` unchanged; joining the fresh room `"q"` and disconnecting
`"B"` preserve the (null) `lastController` of the concerned rooms. -/
theorem C10_heartbeat_controller_frame_witness :
    ((Basic.heartbeat room1 "B" { isPlaying := true, currentTime := some 3 }
        7).1.lastController = room1.lastController) ∧
    (r2JoinFix.lastController =
      (mapGet state1.rooms "q").bind (fun r0 => r0.lastController)) ∧
    (r2DiscFix.lastController =
      (mapGet state1.rooms "r").bind (fun r0 => r0.lastController)) := by
  have H := C10_heartbeat_controller_frame room1 "B"
    { isPlaying := true, currentTime := some 3 } { currentTime := 0, isPlaying := none }
    validMedia 7 state1 "hi" "q" (some "Bob") reachable_state1
  exact ⟨H.1, H.2.2.2.2.2.1 "q" r2JoinFix (by decide),
    H.2.2.2.2.2.2.1 "r" r2DiscFix (by decide)⟩

end SyncServer
